import Mathlib

/-!
Verification development for the adjust-test-task repository: a shallow
embedding of the bounded top-K `Rating` structure (rating.go) and of the
aggregation core of main.go, together with theorems settling the spec's
claims about them.

Scores in the Go program are `float64` values obtained by casting `int64`
counts; every score that ever reaches a comparison is such an integer, so
scores are modelled as `Int` and `GetRating` functions return `Int`.
-/

namespace AdjustTask

/-- Embedding of the `Rating` struct of rating.go: the held `slice` and the
capacity `size`.  The element type is a parameter standing for the Go
`Ratable` interface, paired with an explicit rating function at each use. -/
structure Rating (α : Type) where
  slice : List α
  size : Nat
deriving DecidableEq, Repr

/-- Embedding of `NewRating`: empty slice, given capacity. -/
def NewRating (α : Type) (size : Nat) : Rating α :=
  ⟨[], size⟩

/-- Embedding of the package-level `insert` helper of rating.go
(`append(a[:index+1], a[index:]...)` followed by `a[index] = value`, which
splices `value` in directly before position `index`; when `index` equals the
length it appends). -/
def insertAt {α : Type} (a : List α) (index : Nat) (value : α) : List α :=
  if a.length = index then a ++ [value]
  else a.take index ++ value :: a.drop index

/-- Index search performed by the `for i, value := range r.slice` loop of
`TryPush`: the first index whose resident rating is strictly below the
offered item's rating. -/
def firstBeatenIdx {α : Type} (f : α → Int) (x : α) : List α → Option Nat
  | [] => none
  | v :: rest => if f x > f v then some 0 else (firstBeatenIdx f x rest).map (· + 1)

/-- Embedding of `(*Rating).TryPush`: an empty slice always accepts; otherwise
the item is spliced in before the first strictly-lower-rated resident and the
slice is truncated to `size` when it overflows; if no resident is strictly
lower the item is rejected and nothing changes.  Returns the Go boolean
together with the updated structure. -/
def TryPush {α : Type} (f : α → Int) (r : Rating α) (item : α) : Bool × Rating α :=
  if r.slice.isEmpty then
    (true, { r with slice := [item] })
  else
    match firstBeatenIdx f item r.slice with
    | some i =>
      let s := insertAt r.slice i item
      let s := if r.size < s.length then s.take r.size else s
      (true, { r with slice := s })
    | none => (false, r)

/-- A whole sequence of offers, in order. -/
def offerAll {α : Type} (f : α → Int) (r : Rating α) (items : List α) : Rating α :=
  items.foldl (fun acc it => (TryPush f acc it).2) r

/-- Concrete item type used to exercise the ranking structure: an integer
score plus a tag distinguishing equal-scored items. -/
structure RItem where
  rating : Int
  tag : String
deriving DecidableEq, Repr

/-- Modelled from the spec: insertion of one candidate into a descending
list, placed after all equal-or-greater scores (resident wins ties). -/
def specInsert (x : RItem) : List RItem → List RItem
  | [] => [x]
  | v :: rest => if x.rating > v.rating then x :: v :: rest else v :: specInsert x rest

/-- Modelled from the spec: the true top-K of a sequence of offers, by score
descending, ties broken by offer order (earliest offered first). -/
def specTopK (k : Nat) (offers : List RItem) : List RItem :=
  (offers.foldl (fun acc x => specInsert x acc) []).take k

/-! Aggregation core of main.go. A CSV file is modelled as the outcome of
`os.Open` (`FileData`) holding the outcomes of successive `csv.Reader.Read`
calls (`Row`); the header row is the first row of the file, exactly as the
Go loops see it. -/

/-- Errors of main.go, plus `ioError` for propagated I/O failures and
`runtimePanic` for the nil-pointer dereference in `PerformanceOptimizedRatings`
(the decode error of `NewEventFromCSV` is never checked there, so the Go code
dereferences a nil `*Event` and panics). -/
inductive Err where
  | invalidEventCSV
  | invalidUserCSV
  | invalidCommitCSV
  | invalidRepoCSV
  | ioError (msg : String)
  | runtimePanic
deriving DecidableEq, Repr

/-- Embedding of the `Event` struct (field `Type` is renamed `Type'` because
`Type` is a Lean keyword). -/
structure Event where
  ID : String
  Type' : String
  ActorID : String
  RepoID : String
deriving DecidableEq, Repr

/-- Embedding of the `User` struct. -/
structure User where
  ID : String
  Username : String
deriving DecidableEq, Repr

/-- Embedding of the `Commit` struct. -/
structure Commit where
  Hash : String
  Message : String
  EventID : String
deriving DecidableEq, Repr

/-- Embedding of the `Repo` struct. -/
structure Repo where
  ID : String
  Name : String
deriving DecidableEq, Repr

/-- Event-type constants of eventTypes.go (the three consumed by the core). -/
def eventTypePush : String := "PushEvent"

/-- Event-type constant `PullRequestEvent`. -/
def eventTypePullRequest : String := "PullRequestEvent"

/-- Event-type constant `WatchEvent`. -/
def eventTypeWatch : String := "WatchEvent"

/-- Embedding of `NewEventFromCSV`: four fields assigned positionally,
otherwise `ErrInvalidEventCSV`. -/
def NewEventFromCSV (csv : List String) : Except Err Event :=
  match csv with
  | [a, b, c, d] => .ok ⟨a, b, c, d⟩
  | _ => .error .invalidEventCSV

/-- Embedding of `NewUserFromCSV`: two fields assigned positionally,
otherwise `ErrInvalidUserCSV`. -/
def NewUserFromCSV (csv : List String) : Except Err User :=
  match csv with
  | [a, b] => .ok ⟨a, b⟩
  | _ => .error .invalidUserCSV

/-- Embedding of `NewCommitFromCSV`: three fields assigned positionally,
otherwise `ErrInvalidCommitCSV`. -/
def NewCommitFromCSV (csv : List String) : Except Err Commit :=
  match csv with
  | [a, b, c] => .ok ⟨a, b, c⟩
  | _ => .error .invalidCommitCSV

/-- Embedding of `NewRepoFromCSV`: two fields assigned positionally,
otherwise `ErrInvalidRepoCSV`. -/
def NewRepoFromCSV (csv : List String) : Except Err Repo :=
  match csv with
  | [a, b] => .ok ⟨a, b⟩
  | _ => .error .invalidRepoCSV

/-- Embedding of the `RatableUser` stats struct. -/
structure RatableUser where
  ID : String
  Username : String
  Commits : Int
  PREvents : Int
deriving DecidableEq, Repr

/-- Embedding of `(*RatableUser).GetRating`. -/
def RatableUser.GetRating (u : RatableUser) : Int :=
  u.PREvents + u.Commits

/-- Embedding of the `CommitRatableRepo` adapter struct. -/
structure CommitRatableRepo where
  ID : String
  Name : String
  Commits : Int
deriving DecidableEq, Repr

/-- Embedding of `(*CommitRatableRepo).GetRating`. -/
def CommitRatableRepo.GetRating (r : CommitRatableRepo) : Int :=
  r.Commits

/-- Embedding of the `WatchRatableRepo` adapter struct. -/
structure WatchRatableRepo where
  ID : String
  Name : String
  WatchEvents : Int
deriving DecidableEq, Repr

/-- Embedding of `(*WatchRatableRepo).GetRating`. -/
def WatchRatableRepo.GetRating (r : WatchRatableRepo) : Int :=
  r.WatchEvents

/-- Embedding of the `RepoWithCommitsAndWatches` stats struct. -/
structure RepoWithCommitsAndWatches where
  ID : String
  Name : String
  Commits : Int
  WatchEvents : Int
deriving DecidableEq, Repr

/-- One `csv.Reader.Read` outcome: an I/O or CSV-format error message, or the
record's fields. -/
abbrev Row := Except String (List String)

/-- One `os.Open` outcome: an error message, or the file's rows (header
first). -/
abbrev FileData := Except String (List Row)

/-- The four tables of the extracted archive, as the App's scans see them. -/
structure Tables where
  actorsFile : FileData
  commitsFile : FileData
  eventsFile : FileData
  reposFile : FileData

/-- Scan loop of `countCommitsByEvent` over the commits file rows: read
errors and decode errors propagate, the first row is skipped as the header,
matching commits are counted. -/
def countCommitsLoop (eventID : String) : List Row → Bool → Int → Except Err Int
  | [], _, total => .ok total
  | r :: rest, wasHeaderRead, total =>
    match r with
    | .error e => .error (.ioError e)
    | .ok record =>
      if wasHeaderRead then
        match NewCommitFromCSV record with
        | .error e => .error e
        | .ok commit =>
          if commit.EventID ≠ eventID then countCommitsLoop eventID rest wasHeaderRead total
          else countCommitsLoop eventID rest wasHeaderRead (total + 1)
      else countCommitsLoop eventID rest true total

/-- Embedding of `(*App).countCommitsByEvent`.  When opening the commits file
fails the Go function executes `return 0, nil`, swallowing the error and
reporting zero commits; this branch is reproduced faithfully. -/
def countCommitsByEvent (commitsFile : FileData) (eventID : String) : Except Err Int :=
  match commitsFile with
  | .error _ => .ok 0
  | .ok rows => countCommitsLoop eventID rows false 0

/-- Scan loop of `countUserRating` over the events file rows. -/
def countUserLoop (commitsFile : FileData) (userID : String) :
    List Row → Bool → Int → Int → Except Err (Int × Int)
  | [], _, totalCommits, totalPREvents => .ok (totalCommits, totalPREvents)
  | r :: rest, wasHeaderRead, tc, tp =>
    match r with
    | .error e => .error (.ioError e)
    | .ok record =>
      if wasHeaderRead then
        match NewEventFromCSV record with
        | .error e => .error e
        | .ok event =>
          if event.ActorID ≠ userID then countUserLoop commitsFile userID rest wasHeaderRead tc tp
          else if event.Type' = eventTypePush then
            match countCommitsByEvent commitsFile event.ID with
            | .error e => .error e
            | .ok commitCount => countUserLoop commitsFile userID rest wasHeaderRead (tc + commitCount) tp
          else if event.Type' = eventTypePullRequest then
            countUserLoop commitsFile userID rest wasHeaderRead tc (tp + 1)
          else countUserLoop commitsFile userID rest wasHeaderRead tc tp
      else countUserLoop commitsFile userID rest true tc tp

/-- Embedding of `(*App).countUserRating` (open failure propagates here,
unlike in `countCommitsByEvent`). -/
def countUserRating (eventsFile commitsFile : FileData) (userID : String) :
    Except Err (Int × Int) :=
  match eventsFile with
  | .error e => .error (.ioError e)
  | .ok rows => countUserLoop commitsFile userID rows false 0 0

/-- Scan loop of `countRepoRating` over the events file rows. -/
def countRepoLoop (commitsFile : FileData) (repoID : String) :
    List Row → Bool → Int → Int → Except Err (Int × Int)
  | [], _, commitsPushed, watchEvents => .ok (commitsPushed, watchEvents)
  | r :: rest, wasHeaderRead, cp, we =>
    match r with
    | .error e => .error (.ioError e)
    | .ok record =>
      if wasHeaderRead then
        match NewEventFromCSV record with
        | .error e => .error e
        | .ok event =>
          if event.RepoID ≠ repoID then countRepoLoop commitsFile repoID rest wasHeaderRead cp we
          else if event.Type' = eventTypePush then
            match countCommitsByEvent commitsFile event.ID with
            | .error e => .error e
            | .ok commitsByEvent => countRepoLoop commitsFile repoID rest wasHeaderRead (cp + commitsByEvent) we
          else if event.Type' = eventTypeWatch then
            countRepoLoop commitsFile repoID rest wasHeaderRead cp (we + 1)
          else countRepoLoop commitsFile repoID rest wasHeaderRead cp we
      else countRepoLoop commitsFile repoID rest true cp we

/-- Embedding of `(*App).countRepoRating`. -/
def countRepoRating (eventsFile commitsFile : FileData) (repoID : String) :
    Except Err (Int × Int) :=
  match eventsFile with
  | .error e => .error (.ioError e)
  | .ok rows => countRepoLoop commitsFile repoID rows false 0 0

/-- Scan loop of `rateUsersByPRsAndCommitsSpaceOptimized` over the actors
file rows: each decoded user is rated via `countUserRating` and offered to
the rating. -/
def rateUsersLoop (eventsFile commitsFile : FileData) :
    List Row → Bool → Rating RatableUser → Except Err (Rating RatableUser)
  | [], _, rating => .ok rating
  | r :: rest, wasHeaderRead, rating =>
    match r with
    | .error e => .error (.ioError e)
    | .ok record =>
      if wasHeaderRead then
        match NewUserFromCSV record with
        | .error e => .error e
        | .ok user =>
          match countUserRating eventsFile commitsFile user.ID with
          | .error e => .error e
          | .ok (commitCount, prCount) =>
            rateUsersLoop eventsFile commitsFile rest wasHeaderRead
              (TryPush RatableUser.GetRating rating ⟨user.ID, user.Username, commitCount, prCount⟩).2
      else rateUsersLoop eventsFile commitsFile rest true rating

/-- Embedding of `(*App).rateUsersByPRsAndCommitsSpaceOptimized`. -/
def rateUsersByPRsAndCommitsSpaceOptimized (actorsFile eventsFile commitsFile : FileData) :
    Except Err (Rating RatableUser) :=
  match actorsFile with
  | .error e => .error (.ioError e)
  | .ok rows => rateUsersLoop eventsFile commitsFile rows false (NewRating RatableUser 10)

/-- Scan loop of `rateReposByCommitsAndWatchesSpaceOptimized` over the repos
file rows. -/
def rateReposLoop (eventsFile commitsFile : FileData) :
    List Row → Bool → Rating CommitRatableRepo → Rating WatchRatableRepo →
    Except Err (Rating CommitRatableRepo × Rating WatchRatableRepo)
  | [], _, commitsRating, watchRating => .ok (commitsRating, watchRating)
  | r :: rest, wasHeaderRead, commitsRating, watchRating =>
    match r with
    | .error e => .error (.ioError e)
    | .ok record =>
      if wasHeaderRead then
        match NewRepoFromCSV record with
        | .error e => .error e
        | .ok repo =>
          match countRepoRating eventsFile commitsFile repo.ID with
          | .error e => .error e
          | .ok (commitsCount, watchCount) =>
            rateReposLoop eventsFile commitsFile rest wasHeaderRead
              (TryPush CommitRatableRepo.GetRating commitsRating ⟨repo.ID, repo.Name, commitsCount⟩).2
              (TryPush WatchRatableRepo.GetRating watchRating ⟨repo.ID, repo.Name, watchCount⟩).2
      else rateReposLoop eventsFile commitsFile rest true commitsRating watchRating

/-- Embedding of `(*App).rateReposByCommitsAndWatchesSpaceOptimized`. -/
def rateReposByCommitsAndWatchesSpaceOptimized (reposFile eventsFile commitsFile : FileData) :
    Except Err (Rating CommitRatableRepo × Rating WatchRatableRepo) :=
  match reposFile with
  | .error e => .error (.ioError e)
  | .ok rows =>
    rateReposLoop eventsFile commitsFile rows false
      (NewRating CommitRatableRepo 10) (NewRating WatchRatableRepo 10)

/-- Embedding of `(*App).SpaceOptimizedRatings`: users first, then repos. -/
def SpaceOptimizedRatings (t : Tables) :
    Except Err (Rating RatableUser × Rating CommitRatableRepo × Rating WatchRatableRepo) :=
  match rateUsersByPRsAndCommitsSpaceOptimized t.actorsFile t.eventsFile t.commitsFile with
  | .error e => .error e
  | .ok usersRating =>
    match rateReposByCommitsAndWatchesSpaceOptimized t.reposFile t.eventsFile t.commitsFile with
    | .error e => .error e
    | .ok (repoCommitsRating, repoWatchesRating) =>
      .ok (usersRating, repoCommitsRating, repoWatchesRating)

/-! Go's `map[string]*T` values are modelled as association lists in
insertion order.  Go never specifies a map iteration order; insertion order
is the fixed determinization used when the performance-optimized path folds
the maps into ratings. -/

/-- First-match lookup in an association list (Go `m[k]`, second-result
discarded). -/
def mapLookup {β : Type} (m : List (String × β)) (k : String) : Option β :=
  match m with
  | [] => none
  | (k', v) :: rest => if k' = k then some v else mapLookup rest k

/-- In-place mutation through the stored pointer (Go `m[k].field = ...`):
every entry with the key is rewritten, keys and positions unchanged. -/
def mapUpdate {β : Type} (m : List (String × β)) (k : String) (f : β → β) :
    List (String × β) :=
  m.map fun p => if p.1 = k then (p.1, f p.2) else p

/-- The Go idiom `v, ok := m[k]; if !ok { m[k] = init } else { mutate v }`. -/
def upsert {β : Type} (m : List (String × β)) (k : String) (init : β) (f : β → β) :
    List (String × β) :=
  match mapLookup m k with
  | none => m ++ [(k, init)]
  | some _ => mapUpdate m k f

/-- Key membership in a modelled Go map. -/
def hasKey {β : Type} (m : List (String × β)) (k : String) : Bool :=
  (mapLookup m k).isSome

/-- The per-user stats map of `PerformanceOptimizedRatings`. -/
abbrev UserMap := List (String × RatableUser)

/-- The per-repo stats map of `PerformanceOptimizedRatings`. -/
abbrev RepoMap := List (String × RepoWithCommitsAndWatches)

/-- The `switch event.Type` body of the event loop in
`PerformanceOptimizedRatings`: one event's contribution to the two stats
maps.  Freshly created entries carry the id and an empty display name,
exactly as the Go struct literals do. -/
def processEvent (commitsFile : FileData) (users : UserMap) (repos : RepoMap)
    (event : Event) : Except Err (UserMap × RepoMap) :=
  if event.Type' = eventTypePush then
    match countCommitsByEvent commitsFile event.ID with
    | .error e => .error e
    | .ok commitsCount =>
      .ok (upsert users event.ActorID ⟨event.ActorID, "", commitsCount, 0⟩
             (fun u => { u with Commits := u.Commits + commitsCount }),
           upsert repos event.RepoID ⟨event.RepoID, "", commitsCount, 0⟩
             (fun r => { r with Commits := r.Commits + commitsCount }))
  else if event.Type' = eventTypePullRequest then
    .ok (upsert users event.ActorID ⟨event.ActorID, "", 0, 1⟩
           (fun u => { u with PREvents := u.PREvents + 1 }), repos)
  else if event.Type' = eventTypeWatch then
    .ok (users, upsert repos event.RepoID ⟨event.RepoID, "", 0, 1⟩
           (fun r => { r with WatchEvents := r.WatchEvents + 1 }))
  else .ok (users, repos)

/-- The event-file loop of `PerformanceOptimizedRatings`.  The decode error
of `NewEventFromCSV` is never checked in the Go source, which goes on to
dereference the nil `*Event`; that control path is modelled as
`Err.runtimePanic`. -/
def perfEventsLoop (commitsFile : FileData) :
    List Row → Bool → UserMap → RepoMap → Except Err (UserMap × RepoMap)
  | [], _, users, repos => .ok (users, repos)
  | r :: rest, wasHeaderRead, users, repos =>
    match r with
    | .error e => .error (.ioError e)
    | .ok record =>
      if wasHeaderRead then
        match NewEventFromCSV record with
        | .error _ => .error .runtimePanic
        | .ok event =>
          match processEvent commitsFile users repos event with
          | .error e => .error e
          | .ok (users', repos') => perfEventsLoop commitsFile rest wasHeaderRead users' repos'
      else perfEventsLoop commitsFile rest true users repos

/-- Scan loop of `fillUsernames`: for every decoded user row whose id is in
the map, the Go code executes `rUser.Username = user.ID`, writing the id —
not the decoded username — into the display-name field. -/
def fillUsernamesLoop : List Row → Bool → UserMap → Except Err UserMap
  | [], _, users => .ok users
  | r :: rest, wasHeaderRead, users =>
    match r with
    | .error e => .error (.ioError e)
    | .ok record =>
      if wasHeaderRead then
        match NewUserFromCSV record with
        | .error e => .error e
        | .ok user =>
          match mapLookup users user.ID with
          | none => fillUsernamesLoop rest wasHeaderRead users
          | some _ =>
            fillUsernamesLoop rest wasHeaderRead
              (mapUpdate users user.ID (fun u => { u with Username := user.ID }))
      else fillUsernamesLoop rest true users

/-- Embedding of `(*App).fillUsernames`. -/
def fillUsernames (actorsFile : FileData) (users : UserMap) : Except Err UserMap :=
  match actorsFile with
  | .error e => .error (.ioError e)
  | .ok rows => fillUsernamesLoop rows false users

/-- Scan loop of `fillRepoNames`: here the decoded `repo.Name` is written. -/
def fillRepoNamesLoop : List Row → Bool → RepoMap → Except Err RepoMap
  | [], _, repos => .ok repos
  | r :: rest, wasHeaderRead, repos =>
    match r with
    | .error e => .error (.ioError e)
    | .ok record =>
      if wasHeaderRead then
        match NewRepoFromCSV record with
        | .error e => .error e
        | .ok repo =>
          match mapLookup repos repo.ID with
          | none => fillRepoNamesLoop rest wasHeaderRead repos
          | some _ =>
            fillRepoNamesLoop rest wasHeaderRead
              (mapUpdate repos repo.ID (fun rr => { rr with Name := repo.Name }))
      else fillRepoNamesLoop rest true repos

/-- Embedding of `(*App).fillRepoNames`. -/
def fillRepoNames (reposFile : FileData) (repos : RepoMap) : Except Err RepoMap :=
  match reposFile with
  | .error e => .error (.ioError e)
  | .ok rows => fillRepoNamesLoop rows false repos

/-- Embedding of `(*App).PerformanceOptimizedRatings`: one pass over the
events file, the two name-backfill passes, then every map value is offered to
the corresponding rating (map values in insertion order, see above). -/
def PerformanceOptimizedRatings (t : Tables) :
    Except Err (Rating RatableUser × Rating CommitRatableRepo × Rating WatchRatableRepo) :=
  match t.eventsFile with
  | .error e => .error (.ioError e)
  | .ok rows =>
    match perfEventsLoop t.commitsFile rows false [] [] with
    | .error e => .error e
    | .ok (users, repos) =>
      match fillUsernames t.actorsFile users with
      | .error e => .error e
      | .ok users' =>
        match fillRepoNames t.reposFile repos with
        | .error e => .error e
        | .ok repos' =>
          .ok (users'.foldl (fun acc p => (TryPush RatableUser.GetRating acc p.2).2)
                 (NewRating RatableUser 10),
               repos'.foldl (fun acc p =>
                   (TryPush CommitRatableRepo.GetRating acc ⟨p.2.ID, p.2.Name, p.2.Commits⟩).2)
                 (NewRating CommitRatableRepo 10),
               repos'.foldl (fun acc p =>
                   (TryPush WatchRatableRepo.GetRating acc ⟨p.2.ID, p.2.Name, p.2.WatchEvents⟩).2)
                 (NewRating WatchRatableRepo 10))

/-- Commits-field of the stats record for an id, zero when absent. -/
def userCommitsAt (m : UserMap) (id : String) : Int :=
  match mapLookup m id with
  | some u => u.Commits
  | none => 0

/-- PREvents-field of the stats record for an id, zero when absent. -/
def userPREventsAt (m : UserMap) (id : String) : Int :=
  match mapLookup m id with
  | some u => u.PREvents
  | none => 0

/-- Commits-field of the repo stats record for an id, zero when absent. -/
def repoCommitsAt (m : RepoMap) (id : String) : Int :=
  match mapLookup m id with
  | some r => r.Commits
  | none => 0

/-- WatchEvents-field of the repo stats record for an id, zero when absent. -/
def repoWatchEventsAt (m : RepoMap) (id : String) : Int :=
  match mapLookup m id with
  | some r => r.WatchEvents
  | none => 0

/-- A successfully read commit row. -/
def commitRow (c : Commit) : Row :=
  .ok [c.Hash, c.Message, c.EventID]

/-- A commits file that opens and reads cleanly: a header row followed by
well-formed commit rows. -/
def cleanCommitsFile (hdr : List String) (cs : List Commit) : FileData :=
  .ok (.ok hdr :: cs.map commitRow)

/-- A successfully read event row. -/
def eventRow (e : Event) : Row :=
  .ok [e.ID, e.Type', e.ActorID, e.RepoID]

/-- An events file that opens and reads cleanly. -/
def cleanEventRows (hdr : List String) (evs : List Event) : List Row :=
  .ok hdr :: evs.map eventRow

/-- Concrete four-table input used to compare the two strategies: one user
u1 named alice, one repo r1, one Push event e1 by u1 on r1, two commits
attached to e1. -/
def exTables : Tables :=
  { actorsFile := .ok [.ok ["id", "username"], .ok ["u1", "alice"]]
    commitsFile := .ok [.ok ["hash", "message", "event_id"],
                        .ok ["h1", "m1", "e1"], .ok ["h2", "m2", "e1"]]
    eventsFile := .ok [.ok ["id", "type", "actor_id", "repo_id"],
                       .ok ["e1", "PushEvent", "u1", "r1"]]
    reposFile := .ok [.ok ["id", "name"], .ok ["r1", "repoone"]] }

/-! Theorems settling the claims. -/

/-- C1, counterexample.  The claim states an offer is rejected only when no
held item has a smaller score AND the sequence is already at capacity K.  In
the code the capacity plays no part in rejection: with capacity 3 and a held
sequence of length 1 (score 5), offering score 3 is rejected even though the
rating is below capacity. -/
theorem C1_counterexample :
    (TryPush RItem.rating ⟨[⟨5, "a"⟩], 3⟩ ⟨3, "b"⟩).1 = false
    ∧ (TryPush RItem.rating ⟨[⟨5, "a"⟩], 3⟩ ⟨3, "b"⟩).2 = ⟨[⟨5, "a"⟩], 3⟩
    ∧ ([⟨5, "a"⟩] : List RItem).length < 3
    ∧ TryPush RItem.rating (NewRating RItem 3) ⟨5, "a"⟩ = (true, ⟨[⟨5, "a"⟩], 3⟩) := by
  refine ⟨rfl, rfl, by norm_num, rfl⟩

/-- C3, code bug.  The spec's own scenario: offering scores [5,3,3,8,1] into a
capacity-3 Rating must yield the true top-3 [8,5,3].  The code ends holding
only [8,5]: the offers 3, 3 and 1 were rejected while the rating was still
below capacity, so the held sequence is not the top-K of the candidates. -/
theorem C3_spec_scenario_fails :
    (offerAll RItem.rating (NewRating RItem 3)
        [⟨5, "a"⟩, ⟨3, "b"⟩, ⟨3, "c"⟩, ⟨8, "d"⟩, ⟨1, "e"⟩]).slice
      = [⟨8, "d"⟩, ⟨5, "a"⟩]
    ∧ specTopK 3 [⟨5, "a"⟩, ⟨3, "b"⟩, ⟨3, "c"⟩, ⟨8, "d"⟩, ⟨1, "e"⟩]
      = [⟨8, "d"⟩, ⟨5, "a"⟩, ⟨3, "b"⟩]
    ∧ ([⟨8, "d"⟩, ⟨5, "a"⟩] : List RItem) ≠ [⟨8, "d"⟩, ⟨5, "a"⟩, ⟨3, "b"⟩] := by
  refine ⟨rfl, rfl, by decide⟩

/-- C7, code bug.  A Rating of capacity K=0 does not reject everything: the
empty-slice branch of TryPush appends unconditionally, so the very first
offer is accepted and the held sequence has length 1 > 0. -/
theorem C7_zero_capacity_accepts :
    TryPush RItem.rating (NewRating RItem 0) ⟨1, "a"⟩ = (true, ⟨[⟨1, "a"⟩], 0⟩)
    ∧ (TryPush RItem.rating (NewRating RItem 0) ⟨1, "a"⟩).2.slice.length = 1 := by
  exact ⟨rfl, rfl⟩

/-- C4, code bug.  When opening the commits file fails, countCommitsByEvent
executes `return 0, nil`: the I/O failure is swallowed and a commit count of
0 is reported as success instead of aborting the aggregation. -/
theorem C4_open_failure_swallowed :
    countCommitsByEvent (.error "open commits.csv: no such file or directory") "e1"
      = .ok 0 := rfl

/-- C6, code bug.  With a user table containing the row [u1, alice] and a
stats entry keyed u1, the backfill pass writes the id "u1" into the
Username field instead of the decoded username "alice" (the repo-name pass,
by contrast, writes the decoded name). -/
theorem C6_username_backfill_bug :
    fillUsernames (.ok [.ok ["id", "username"], .ok ["u1", "alice"]])
        [("u1", ⟨"u1", "", 2, 0⟩)]
      = .ok [("u1", ⟨"u1", "u1", 2, 0⟩)]
    ∧ fillRepoNames (.ok [.ok ["id", "name"], .ok ["r1", "repoone"]])
        [("r1", ⟨"r1", "", 2, 0⟩)]
      = .ok [("r1", ⟨"r1", "repoone", 2, 0⟩)]
    ∧ ("u1" : String) ≠ "alice" := by
  refine ⟨rfl, rfl, by decide⟩

/-- C2, code bug.  On the concrete table set `exTables` the two strategies
disagree: the space-optimized path reports user u1 with its decoded username
"alice", while the performance-optimized path backfills the username with
the id "u1"; hence the per-entity stats are not byte-identical and the user
ratings differ. -/
theorem C2_strategies_differ :
    SpaceOptimizedRatings exTables
      = .ok (⟨[⟨"u1", "alice", 2, 0⟩], 10⟩, ⟨[⟨"r1", "repoone", 2⟩], 10⟩,
             ⟨[⟨"r1", "repoone", 0⟩], 10⟩)
    ∧ PerformanceOptimizedRatings exTables
      = .ok (⟨[⟨"u1", "u1", 2, 0⟩], 10⟩, ⟨[⟨"r1", "repoone", 2⟩], 10⟩,
             ⟨[⟨"r1", "repoone", 0⟩], 10⟩)
    ∧ (⟨[⟨"u1", "alice", 2, 0⟩], 10⟩ : Rating RatableUser) ≠ ⟨[⟨"u1", "u1", 2, 0⟩], 10⟩ := by
  refine ⟨rfl, rfl, by decide⟩

/-- The scan loop finds no strictly-lower-rated resident exactly on the lists
whose members all rate at least the offered item. -/
theorem firstBeatenIdx_eq_none {α : Type} (f : α → Int) (x : α) (l : List α)
    (h : ∀ v ∈ l, f x ≤ f v) : firstBeatenIdx f x l = none := by
  induction l with
  | nil => rfl
  | cons a t ih =>
    have ha : ¬(f x > f a) := not_lt.mpr (h a (List.mem_cons_self a t))
    simp only [firstBeatenIdx, ha, if_false, Option.map_eq_none']
    exact ih fun v hv => h v (List.mem_cons_of_mem a hv)

/-- The scan loop returns the least index whose resident rates strictly
below the offered item. -/
theorem firstBeatenIdx_eq_some {α : Type} (f : α → Int) (x : α) (l : List α) (i : Nat)
    (hi : i < l.length) (hbeat : f x > f (l.get ⟨i, hi⟩))
    (hbefore : ∀ v ∈ l.take i, f x ≤ f v) :
    firstBeatenIdx f x l = some i := by
  induction l generalizing i with
  | nil => simp at hi
  | cons a t ih =>
    cases i with
    | zero =>
      simp only [List.get] at hbeat
      simp [firstBeatenIdx, hbeat]
    | succ j =>
      have ha : ¬(f x > f a) := not_lt.mpr (hbefore a (by simp))
      simp only [firstBeatenIdx, ha, if_false]
      rw [ih j (by simpa using hi) (by simpa using hbeat)
            (fun v hv => hbefore v (by simpa using Or.inr hv))]
      rfl

/-- C10: whenever TryPush returns false the held sequence (indeed the whole
structure) is unchanged — the rejecting path performs no mutation, whether or
not the sequence is at capacity. -/
theorem C10_reject_frame {α : Type} (f : α → Int) (r : Rating α) (item : α)
    (h : (TryPush f r item).1 = false) : (TryPush f r item).2 = r := by
  unfold TryPush at h ⊢
  cases he : r.slice.isEmpty with
  | true => simp [he] at h
  | false =>
    simp only [he, Bool.false_eq_true, if_false] at h ⊢
    cases hf : firstBeatenIdx f item r.slice with
    | none => simp [hf]
    | some i => simp [hf] at h

/-- C10 witness: a concrete rejected offer into a below-capacity rating
leaves the structure unchanged. -/
theorem C10_reject_frame_witness :
    (TryPush RItem.rating ⟨[⟨5, "w"⟩], 3⟩ ⟨3, "x"⟩).2 = ⟨[⟨5, "w"⟩], 3⟩
    ∧ ([⟨5, "w"⟩] : List RItem).length < 3 :=
  ⟨C10_reject_frame RItem.rating ⟨[⟨5, "w"⟩], 3⟩ ⟨3, "x"⟩ rfl, by norm_num⟩

/-- C1, amended.  TryPush inserts the offered item immediately before the
first held item whose score is strictly less than the item's score
(residents win ties) and truncates to capacity; an offer into an empty
sequence is always inserted; and the item is rejected, with no mutation,
whenever the sequence is nonempty and no held item has a strictly smaller
score — regardless of whether the sequence is at capacity. -/
theorem C1_tryPush_amended {α : Type} (f : α → Int) (r : Rating α) (item : α) :
    (r.slice = [] → TryPush f r item = (true, { r with slice := [item] }))
    ∧ (r.slice ≠ [] → (∀ v ∈ r.slice, f item ≤ f v) → TryPush f r item = (false, r))
    ∧ (∀ i, (hi : i < r.slice.length) → f item > f (r.slice.get ⟨i, hi⟩) →
        (∀ v ∈ r.slice.take i, f item ≤ f v) →
        TryPush f r item =
          (true, { r with slice := (r.slice.take i ++ item :: r.slice.drop i).take r.size })) := by
  refine ⟨?_, ?_, ?_⟩
  · intro he
    unfold TryPush
    simp [he]
  · intro hne hle
    have he : r.slice.isEmpty = false := by
      cases hs : r.slice with
      | nil => exact absurd hs hne
      | cons a t => rfl
    unfold TryPush
    simp [he, firstBeatenIdx_eq_none f item r.slice hle]
  · intro i hi hbeat hbefore
    have he : r.slice.isEmpty = false := by
      cases hs : r.slice with
      | nil => rw [hs] at hi; simp at hi
      | cons a t => rfl
    unfold TryPush
    simp only [he, Bool.false_eq_true, if_false,
      firstBeatenIdx_eq_some f item r.slice i hi hbeat hbefore]
    unfold insertAt
    simp only [hi.ne', if_false]
    by_cases hsz : r.size < (r.slice.take i ++ item :: r.slice.drop i).length
    · simp [hsz]
    · simp [hsz, List.take_of_length_le (Nat.le_of_not_lt hsz)]

/-- C1 witness: offering score 3 into held scores [5, 2] (capacity 3) splices
it before the first strictly-smaller resident. -/
theorem C1_tryPush_amended_witness :
    TryPush RItem.rating ⟨[⟨5, "p"⟩, ⟨2, "q"⟩], 3⟩ ⟨3, "s"⟩
      = (true, ⟨[⟨5, "p"⟩, ⟨3, "s"⟩, ⟨2, "q"⟩], 3⟩) := by
  have h := (C1_tryPush_amended RItem.rating ⟨[⟨5, "p"⟩, ⟨2, "q"⟩], 3⟩ ⟨3, "s"⟩).2.2 1
    (by norm_num) (by norm_num) (by decide)
  simpa using h

/-- C9: each decoder fails with its malformed-record error exactly when the
field count differs from the entity's arity (Event 4, User 2, Commit 3,
Repo 2), and on matching arity succeeds, assigning the fields positionally
with no further validation of their contents. -/
theorem C9_decoders :
    (∀ a b c d : String, NewEventFromCSV [a, b, c, d] = .ok ⟨a, b, c, d⟩)
    ∧ (∀ csv : List String, csv.length ≠ 4 → NewEventFromCSV csv = .error .invalidEventCSV)
    ∧ (∀ a b : String, NewUserFromCSV [a, b] = .ok ⟨a, b⟩)
    ∧ (∀ csv : List String, csv.length ≠ 2 → NewUserFromCSV csv = .error .invalidUserCSV)
    ∧ (∀ a b c : String, NewCommitFromCSV [a, b, c] = .ok ⟨a, b, c⟩)
    ∧ (∀ csv : List String, csv.length ≠ 3 → NewCommitFromCSV csv = .error .invalidCommitCSV)
    ∧ (∀ a b : String, NewRepoFromCSV [a, b] = .ok ⟨a, b⟩)
    ∧ (∀ csv : List String, csv.length ≠ 2 → NewRepoFromCSV csv = .error .invalidRepoCSV) := by
  refine ⟨fun a b c d => rfl, ?_, fun a b => rfl, ?_, fun a b c => rfl, ?_, fun a b => rfl, ?_⟩
  · intro csv h
    rcases csv with _ | ⟨a, _ | ⟨b, _ | ⟨c, _ | ⟨d, _ | t⟩⟩⟩⟩ <;> first | rfl | simp at h
  · intro csv h
    rcases csv with _ | ⟨a, _ | ⟨b, _ | ⟨c, t⟩⟩⟩ <;> first | rfl | simp at h
  · intro csv h
    rcases csv with _ | ⟨a, _ | ⟨b, _ | ⟨c, _ | ⟨d, t⟩⟩⟩⟩ <;> first | rfl | simp at h
  · intro csv h
    rcases csv with _ | ⟨a, _ | ⟨b, _ | ⟨c, t⟩⟩⟩ <;> first | rfl | simp at h

/-- C9 witness: one success and one arity failure for each decoder. -/
theorem C9_decoders_witness :
    NewEventFromCSV ["e1", "PushEvent", "u1", "r1"] = .ok ⟨"e1", "PushEvent", "u1", "r1"⟩
    ∧ NewEventFromCSV ["e1"] = .error .invalidEventCSV
    ∧ NewUserFromCSV ["u1", "alice"] = .ok ⟨"u1", "alice"⟩
    ∧ NewUserFromCSV [] = .error .invalidUserCSV
    ∧ NewCommitFromCSV ["h1", "m1", "e1"] = .ok ⟨"h1", "m1", "e1"⟩
    ∧ NewCommitFromCSV ["h1"] = .error .invalidCommitCSV
    ∧ NewRepoFromCSV ["r1", "repoone"] = .ok ⟨"r1", "repoone"⟩
    ∧ NewRepoFromCSV ["r1", "x", "y"] = .error .invalidRepoCSV :=
  ⟨C9_decoders.1 "e1" "PushEvent" "u1" "r1",
   C9_decoders.2.1 ["e1"] (by decide),
   C9_decoders.2.2.1 "u1" "alice",
   C9_decoders.2.2.2.1 [] (by decide),
   C9_decoders.2.2.2.2.1 "h1" "m1" "e1",
   C9_decoders.2.2.2.2.2.1 ["h1"] (by decide),
   C9_decoders.2.2.2.2.2.2.1 "r1" "repoone",
   C9_decoders.2.2.2.2.2.2.2 ["r1", "x", "y"] (by decide)⟩

/-- Lookup skips an appended suffix while the key is absent from the
prefix. -/
theorem mapLookup_append_of_none {β : Type} (m₁ m₂ : List (String × β)) (k : String)
    (h : mapLookup m₁ k = none) : mapLookup (m₁ ++ m₂) k = mapLookup m₂ k := by
  induction m₁ with
  | nil => simp [mapLookup]
  | cons p rest ih =>
    obtain ⟨k', v⟩ := p
    by_cases hk : k' = k
    · simp [mapLookup, hk] at h
    · simp only [mapLookup, hk, if_false, List.cons_append] at h ⊢
      exact ih h

/-- Lookup ignores an appended suffix when the key is present in the
prefix. -/
theorem mapLookup_append_of_some {β : Type} (m₁ m₂ : List (String × β)) (k : String)
    (v : β) (h : mapLookup m₁ k = some v) : mapLookup (m₁ ++ m₂) k = some v := by
  induction m₁ with
  | nil => simp [mapLookup] at h
  | cons p rest ih =>
    obtain ⟨k', w⟩ := p
    by_cases hk : k' = k
    · simp only [mapLookup, hk, if_pos rfl, List.cons_append] at h ⊢
      exact h
    · simp only [mapLookup, hk, if_false, List.cons_append] at h ⊢
      exact ih h

/-- Lookup after an in-place value rewrite: the rewritten key reads through
the function, every other key is untouched. -/
theorem mapLookup_mapUpdate {β : Type} (m : List (String × β)) (k x : String) (f : β → β) :
    mapLookup (mapUpdate m k f) x =
      if x = k then Option.map f (mapLookup m k) else mapLookup m x := by
  induction m with
  | nil => simp [mapLookup, mapUpdate]
  | cons p rest ih =>
    obtain ⟨k', v⟩ := p
    have hstep : mapUpdate ((k', v) :: rest) k f
        = (if k' = k then (k', f v) else (k', v)) :: mapUpdate rest k f := by
      simp [mapUpdate]
    rw [hstep]
    by_cases h1 : k' = k
    · rw [if_pos h1]
      subst h1
      by_cases h2 : k' = x
      · subst h2
        simp [mapLookup]
      · have hx : x ≠ k' := fun hh => h2 hh.symm
        simp [mapLookup, h2, hx, ih]
    · rw [if_neg h1]
      by_cases h2 : k' = x
      · subst h2
        have hx : ¬(k' = k) := h1
        simp [mapLookup, hx]
      · simp [mapLookup, h1, h2, ih]

/-- Lookup after the Go create-or-mutate idiom. -/
theorem mapLookup_upsert {β : Type} (m : List (String × β)) (k x : String)
    (init : β) (f : β → β) :
    mapLookup (upsert m k init f) x =
      if x = k then
        some (match mapLookup m k with | none => init | some v => f v)
      else mapLookup m x := by
  unfold upsert
  cases h : mapLookup m k with
  | none =>
    by_cases hx : x = k
    · subst hx
      rw [mapLookup_append_of_none m _ x h]
      simp [mapLookup, h]
    · cases hm : mapLookup m x with
      | none =>
        rw [mapLookup_append_of_none m _ x hm]
        have : k ≠ x := fun hh => hx hh.symm
        simp [mapLookup, hx, this, hm]
      | some v =>
        rw [mapLookup_append_of_some m _ x v hm]
        simp [hx, hm]
  | some v =>
    rw [mapLookup_mapUpdate]
    by_cases hx : x = k <;> simp [hx, h]

/-- Key membership after the Go create-or-mutate idiom: exactly the old keys
plus the touched key. -/
theorem hasKey_upsert {β : Type} (m : List (String × β)) (k x : String)
    (init : β) (f : β → β) :
    (hasKey (upsert m k init f) x = true ↔ hasKey m x = true ∨ k = x) := by
  unfold hasKey
  rw [mapLookup_upsert]
  by_cases hx : x = k
  · subst hx
    cases h : mapLookup m x <;> simp [h]
  · have hkx : ¬(k = x) := fun hh => hx hh.symm
    simp [hx, hkx]

/-- A well-formed commit row decodes back to its commit. -/
theorem NewCommitFromCSV_commitRow (c : Commit) :
    NewCommitFromCSV [c.Hash, c.Message, c.EventID] = .ok c := rfl

/-- A well-formed event row decodes back to its event. -/
theorem NewEventFromCSV_eventRow (e : Event) :
    NewEventFromCSV [e.ID, e.Type', e.ActorID, e.RepoID] = .ok e := rfl

/-- On clean commit rows the scan loop counts exactly the rows whose eventId
matches. -/
theorem countCommitsLoop_clean (eid : String) (cs : List Commit) (t : Int) :
    countCommitsLoop eid (cs.map commitRow) true t
      = .ok (t + ((cs.filter fun cm => cm.EventID = eid).length : Int)) := by
  induction cs generalizing t with
  | nil => simp [countCommitsLoop]
  | cons c rest ih =>
    simp [countCommitsLoop, commitRow, NewCommitFromCSV_commitRow, ih]
    by_cases hc : c.EventID = eid
    · simp [hc, List.filter_cons]
      ring
    · simp [hc, List.filter_cons]

/-- On a clean commits file, countCommitsByEvent returns the number of
commit rows whose eventId equals the given event id. -/
theorem countCommitsByEvent_clean (hdr : List String) (cs : List Commit) (eid : String) :
    countCommitsByEvent (cleanCommitsFile hdr cs) eid
      = .ok ((cs.filter fun cm => cm.EventID = eid).length : Int) := by
  have h := countCommitsLoop_clean eid cs 0
  simpa [countCommitsByEvent, cleanCommitsFile, countCommitsLoop] using h

/-- C5: per-event contributions of the aggregation step.  On a clean commits
table, a Push event adds the number of commit rows whose eventId equals the
event's id to the actor's commits and to the repo's commits (the same count
for both) and touches nothing else; a PullRequest event increments only the
actor's pullRequestEvents by 1; a Watch event increments only the repo's
watchEvents by 1; an event of any other type contributes to no stats. -/
theorem C5_event_contributions (hdr : List String) (cs : List Commit)
    (users : UserMap) (repos : RepoMap) (ev : Event) :
    (ev.Type' = eventTypePush →
      ∃ p, processEvent (cleanCommitsFile hdr cs) users repos ev = .ok p
        ∧ (∀ id, userCommitsAt p.1 id
            = userCommitsAt users id
              + (if id = ev.ActorID then ((cs.filter fun cm => cm.EventID = ev.ID).length : Int) else 0))
        ∧ (∀ id, userPREventsAt p.1 id = userPREventsAt users id)
        ∧ (∀ id, repoCommitsAt p.2 id
            = repoCommitsAt repos id
              + (if id = ev.RepoID then ((cs.filter fun cm => cm.EventID = ev.ID).length : Int) else 0))
        ∧ (∀ id, repoWatchEventsAt p.2 id = repoWatchEventsAt repos id))
    ∧ (ev.Type' = eventTypePullRequest →
      ∃ p, processEvent (cleanCommitsFile hdr cs) users repos ev = .ok p
        ∧ (∀ id, userPREventsAt p.1 id
            = userPREventsAt users id + (if id = ev.ActorID then 1 else 0))
        ∧ (∀ id, userCommitsAt p.1 id = userCommitsAt users id)
        ∧ p.2 = repos)
    ∧ (ev.Type' = eventTypeWatch →
      ∃ p, processEvent (cleanCommitsFile hdr cs) users repos ev = .ok p
        ∧ p.1 = users
        ∧ (∀ id, repoWatchEventsAt p.2 id
            = repoWatchEventsAt repos id + (if id = ev.RepoID then 1 else 0))
        ∧ (∀ id, repoCommitsAt p.2 id = repoCommitsAt repos id))
    ∧ (ev.Type' ≠ eventTypePush → ev.Type' ≠ eventTypePullRequest → ev.Type' ≠ eventTypeWatch →
      processEvent (cleanCommitsFile hdr cs) users repos ev = .ok (users, repos)) := by
  refine ⟨?_, ?_, ?_, ?_⟩
  · intro h
    refine ⟨(upsert users ev.ActorID
          ⟨ev.ActorID, "", ((cs.filter fun cm => cm.EventID = ev.ID).length : Int), 0⟩
          (fun u => { u with
            Commits := u.Commits + ((cs.filter fun cm => cm.EventID = ev.ID).length : Int) }),
        upsert repos ev.RepoID
          ⟨ev.RepoID, "", ((cs.filter fun cm => cm.EventID = ev.ID).length : Int), 0⟩
          (fun r => { r with
            Commits := r.Commits + ((cs.filter fun cm => cm.EventID = ev.ID).length : Int) })),
        ?_, ?_, ?_, ?_, ?_⟩
    · simp [processEvent, h, countCommitsByEvent_clean]
    · intro id
      unfold userCommitsAt
      rw [mapLookup_upsert]
      by_cases hid : id = ev.ActorID
      · rw [hid]
        cases hl : mapLookup users ev.ActorID <;> simp [hl]
      · simp [hid]
    · intro id
      unfold userPREventsAt
      rw [mapLookup_upsert]
      by_cases hid : id = ev.ActorID
      · rw [hid]
        cases hl : mapLookup users ev.ActorID <;> simp [hl]
      · simp [hid]
    · intro id
      unfold repoCommitsAt
      rw [mapLookup_upsert]
      by_cases hid : id = ev.RepoID
      · rw [hid]
        cases hl : mapLookup repos ev.RepoID <;> simp [hl]
      · simp [hid]
    · intro id
      unfold repoWatchEventsAt
      rw [mapLookup_upsert]
      by_cases hid : id = ev.RepoID
      · rw [hid]
        cases hl : mapLookup repos ev.RepoID <;> simp [hl]
      · simp [hid]
  · intro h
    have d1 : ¬(eventTypePullRequest = eventTypePush) := by decide
    refine ⟨(upsert users ev.ActorID ⟨ev.ActorID, "", 0, 1⟩
          (fun u => { u with PREvents := u.PREvents + 1 }), repos), ?_, ?_, ?_, rfl⟩
    · simp [processEvent, h, d1]
    · intro id
      unfold userPREventsAt
      rw [mapLookup_upsert]
      by_cases hid : id = ev.ActorID
      · rw [hid]
        cases hl : mapLookup users ev.ActorID <;> simp [hl]
      · simp [hid]
    · intro id
      unfold userCommitsAt
      rw [mapLookup_upsert]
      by_cases hid : id = ev.ActorID
      · rw [hid]
        cases hl : mapLookup users ev.ActorID <;> simp [hl]
      · simp [hid]
  · intro h
    have d1 : ¬(eventTypeWatch = eventTypePush) := by decide
    have d2 : ¬(eventTypeWatch = eventTypePullRequest) := by decide
    refine ⟨(users, upsert repos ev.RepoID ⟨ev.RepoID, "", 0, 1⟩
          (fun r => { r with WatchEvents := r.WatchEvents + 1 })), ?_, rfl, ?_, ?_⟩
    · simp [processEvent, h, d1, d2]
    · intro id
      unfold repoWatchEventsAt
      rw [mapLookup_upsert]
      by_cases hid : id = ev.RepoID
      · rw [hid]
        cases hl : mapLookup repos ev.RepoID <;> simp [hl]
      · simp [hid]
    · intro id
      unfold repoCommitsAt
      rw [mapLookup_upsert]
      by_cases hid : id = ev.RepoID
      · rw [hid]
        cases hl : mapLookup repos ev.RepoID <;> simp [hl]
      · simp [hid]
  · intro h1 h2 h3
    simp [processEvent, h1, h2, h3]

/-- C5 witness: the spec's scenario — a Push event with two matching commit
rows adds 2 to both the actor's and the repo's commit count. -/
theorem C5_event_contributions_witness :
    ∃ p, processEvent (cleanCommitsFile ["hash", "message", "event_id"]
          [⟨"h1", "m1", "e1"⟩, ⟨"h2", "m2", "e1"⟩]) [] [] ⟨"e1", "PushEvent", "u1", "r1"⟩
        = .ok p
      ∧ userCommitsAt p.1 "u1" = 2 ∧ repoCommitsAt p.2 "r1" = 2
      ∧ userPREventsAt p.1 "u1" = 0 ∧ repoWatchEventsAt p.2 "r1" = 0 := by
  obtain ⟨p, hp, hc, hpr, hrc, hw⟩ :=
    (C5_event_contributions ["hash", "message", "event_id"]
      [⟨"h1", "m1", "e1"⟩, ⟨"h2", "m2", "e1"⟩] [] [] ⟨"e1", "PushEvent", "u1", "r1"⟩).1 rfl
  refine ⟨p, hp, ?_, ?_, ?_, ?_⟩
  · have h := hc "u1"
    simpa [userCommitsAt, mapLookup] using h
  · have h := hrc "r1"
    simpa [repoCommitsAt, mapLookup] using h
  · have h := hpr "u1"
    simpa [userPREventsAt, mapLookup] using h
  · have h := hw "r1"
    simpa [repoWatchEventsAt, mapLookup] using h

/-- Keys present after the event loop of the single-pass strategy, relative
to arbitrary starting maps: exactly the starting keys plus, for the users
map, the actor ids of Push/PullRequest events and, for the repos map, the
repo ids of Push/Watch events. -/
theorem perfEventsLoop_keys (hdr : List String) (cs : List Commit) (evs : List Event)
    (u0 : UserMap) (r0 : RepoMap) (p : UserMap × RepoMap)
    (h : perfEventsLoop (cleanCommitsFile hdr cs) (evs.map eventRow) true u0 r0 = .ok p)
    (id : String) :
    (hasKey p.1 id = true ↔ hasKey u0 id = true ∨
      ∃ ev ∈ evs, (ev.Type' = eventTypePush ∨ ev.Type' = eventTypePullRequest) ∧ ev.ActorID = id)
    ∧ (hasKey p.2 id = true ↔ hasKey r0 id = true ∨
      ∃ ev ∈ evs, (ev.Type' = eventTypePush ∨ ev.Type' = eventTypeWatch) ∧ ev.RepoID = id) := by
  induction evs generalizing u0 r0 with
  | nil =>
    simp only [List.map_nil, perfEventsLoop, Except.ok.injEq] at h
    subst h
    simp
  | cons e rest ih =>
    simp only [List.map_cons] at h
    rw [show perfEventsLoop (cleanCommitsFile hdr cs) (eventRow e :: List.map eventRow rest)
          true u0 r0
        = (match processEvent (cleanCommitsFile hdr cs) u0 r0 e with
           | .error err => .error err
           | .ok (users', repos') =>
             perfEventsLoop (cleanCommitsFile hdr cs) (List.map eventRow rest) true users' repos')
      from rfl] at h
    cases hpe : processEvent (cleanCommitsFile hdr cs) u0 r0 e with
    | error err =>
      rw [hpe] at h
      simp at h
    | ok q =>
      obtain ⟨u1, r1⟩ := q
      rw [hpe] at h
      dsimp only at h
      by_cases h1 : e.Type' = eventTypePush
      · simp [processEvent, h1, countCommitsByEvent_clean] at hpe
        obtain ⟨hu, hr⟩ := hpe
        subst hu
        subst hr
        obtain ⟨ihu, ihr⟩ := ih _ _ h
        constructor
        · rw [ihu, hasKey_upsert]
          simp only [List.exists_mem_cons_iff, h1, true_or, true_and]
          rw [or_assoc]
        · rw [ihr, hasKey_upsert]
          simp only [List.exists_mem_cons_iff, h1, true_or, true_and]
          rw [or_assoc]
      · by_cases h2 : e.Type' = eventTypePullRequest
        · have d1 : ¬(eventTypePullRequest = eventTypePush) := by decide
          have d2 : ¬(eventTypePullRequest = eventTypeWatch) := by decide
          simp [processEvent, h2, d1] at hpe
          obtain ⟨hu, hr⟩ := hpe
          subst hu
          subst hr
          obtain ⟨ihu, ihr⟩ := ih _ _ h
          constructor
          · rw [ihu, hasKey_upsert]
            simp only [List.exists_mem_cons_iff, h2, or_true, true_and]
            rw [or_assoc]
          · rw [ihr]
            simp only [List.exists_mem_cons_iff, h2, d1, d2, or_self, false_and,
              false_or]
        · by_cases h3 : e.Type' = eventTypeWatch
          · have d1 : ¬(eventTypeWatch = eventTypePush) := by decide
            have d2 : ¬(eventTypeWatch = eventTypePullRequest) := by decide
            simp [processEvent, h3, d1, d2] at hpe
            obtain ⟨hu, hr⟩ := hpe
            subst hu
            subst hr
            obtain ⟨ihu, ihr⟩ := ih _ _ h
            constructor
            · rw [ihu]
              simp only [List.exists_mem_cons_iff, h3, d1, d2, or_self, false_and,
                false_or]
            · rw [ihr, hasKey_upsert]
              simp only [List.exists_mem_cons_iff, h3, or_true, true_and]
              rw [or_assoc]
          · simp [processEvent, h1, h2, h3] at hpe
            obtain ⟨hu, hr⟩ := hpe
            subst hu
            subst hr
            obtain ⟨ihu, ihr⟩ := ih _ _ h
            constructor
            · rw [ihu]
              simp only [List.exists_mem_cons_iff, h1, h2, or_self, false_and,
                false_or]
            · rw [ihr]
              simp only [List.exists_mem_cons_iff, h1, h3, or_self, false_and,
                false_or]

/-- C8, amended.  After the event pass of the performance-optimized strategy
over clean tables, a stats record exists in the users map for an id iff some
Push or PullRequest event has that id as its ActorID, and one exists in the
repos map for an id iff some Push or Watch event has that id as its RepoID.
(An id referenced by a relevant event only in the other role — e.g. the
actor of a Watch event — gets no record.) -/
theorem C8_keys (chdr : List String) (cs : List Commit) (ehdr : List String)
    (evs : List Event) (p : UserMap × RepoMap)
    (h : perfEventsLoop (cleanCommitsFile chdr cs) (cleanEventRows ehdr evs) false [] []
      = .ok p) (id : String) :
    (hasKey p.1 id = true ↔
      ∃ ev ∈ evs, (ev.Type' = eventTypePush ∨ ev.Type' = eventTypePullRequest) ∧ ev.ActorID = id)
    ∧ (hasKey p.2 id = true ↔
      ∃ ev ∈ evs, (ev.Type' = eventTypePush ∨ ev.Type' = eventTypeWatch) ∧ ev.RepoID = id) := by
  have h' : perfEventsLoop (cleanCommitsFile chdr cs) (evs.map eventRow) true [] [] = .ok p := h
  have hk := perfEventsLoop_keys chdr cs evs [] [] p h' id
  simpa [hasKey, mapLookup] using hk

/-- C8 witness: a single Push event by u1 on r1 (no commits) creates the two
records, and the iff instances are exactly those of C8_keys. -/
theorem C8_keys_witness :
    (hasKey [("u1", (⟨"u1", "", 0, 0⟩ : RatableUser))] "u1" = true ↔
      ∃ ev ∈ [(⟨"e1", "PushEvent", "u1", "r1"⟩ : Event)],
        (ev.Type' = eventTypePush ∨ ev.Type' = eventTypePullRequest) ∧ ev.ActorID = "u1")
    ∧ (hasKey [("r1", (⟨"r1", "", 0, 0⟩ : RepoWithCommitsAndWatches))] "u1" = true ↔
      ∃ ev ∈ [(⟨"e1", "PushEvent", "u1", "r1"⟩ : Event)],
        (ev.Type' = eventTypePush ∨ ev.Type' = eventTypeWatch) ∧ ev.RepoID = "u1") :=
  C8_keys ["hash", "message", "event_id"] [] ["id", "type", "actor_id", "repo_id"]
    [⟨"e1", "PushEvent", "u1", "r1"⟩]
    ([("u1", ⟨"u1", "", 0, 0⟩)], [("r1", ⟨"r1", "", 0, 0⟩)]) rfl "u1"

/-- C8, counterexample to the claim as stated.  A Watch event is a relevant
event and references the id u1 (as its actor), yet after aggregation neither
the users map nor the repos map contains a record for u1: "record exists iff
at least one relevant event referenced that id" fails in the if-direction. -/
theorem C8_counterexample :
    perfEventsLoop (cleanCommitsFile ["hash", "message", "event_id"] [])
        (cleanEventRows ["id", "type", "actor_id", "repo_id"]
          [⟨"e1", "WatchEvent", "u1", "r1"⟩]) false [] []
      = .ok ([], [("r1", ⟨"r1", "", 0, 1⟩)])
    ∧ (∃ ev ∈ [(⟨"e1", "WatchEvent", "u1", "r1"⟩ : Event)],
        (ev.Type' = eventTypePush ∨ ev.Type' = eventTypePullRequest ∨ ev.Type' = eventTypeWatch)
        ∧ (ev.ActorID = "u1" ∨ ev.RepoID = "u1"))
    ∧ hasKey ([] : UserMap) "u1" = false
    ∧ hasKey [("r1", (⟨"r1", "", 0, 1⟩ : RepoWithCommitsAndWatches))] "u1" = false := by
  refine ⟨rfl, ⟨⟨"e1", "WatchEvent", "u1", "r1"⟩, by simp, Or.inr (Or.inr rfl), Or.inl rfl⟩,
    rfl, by decide⟩

end AdjustTask









